import Mathlib

/-!
Verification development for the Shopify catalog content-update pipeline
(`shopify_product_update_api.py`, `shopify_product_description_update.py`,
`shopify_price_update_by_tag.py`).

Python strings are modelled as lists of characters (`PyStr`); the Python
string operations the scripts use (`lower`, `strip`, `split`, `join`,
substring membership, `replace`, decimal formatting of integers) are
defined below over that representation, restricted to ASCII where Python
is Unicode-aware.  All definitions are executable.
-/

/-- Model of a Python `str`: a list of characters. -/
abbrev PyStr := List Char

/-- Shorthand turning a Lean string literal into the model type. -/
def str (s : String) : PyStr := s.data

/-- Characters matched by Python's `\s` class and stripped by `str.strip()`:
space, tab, newline, carriage return, form feed, vertical tab. -/
def isSpaceChar (c : Char) : Bool :=
  c.toNat = 32 || c.toNat = 9 || c.toNat = 10 || c.toNat = 13 || c.toNat = 12 || c.toNat = 11

/-- Model of Python `str.lower()` (ASCII range, which is all the scripts rely on). -/
def lower (s : PyStr) : PyStr := s.map Char.toLower

/-- Model of Python `str.strip()`. -/
def pyStrip (s : PyStr) : PyStr :=
  ((s.dropWhile isSpaceChar).reverse.dropWhile isSpaceChar).reverse

/-- Model of Python `str.split(sep)` for a one-character separator:
splits at every occurrence, keeping empty pieces, and yields one (empty)
piece for the empty string. -/
def splitOnChar (sep : Char) : PyStr → List PyStr
  | [] => [[]]
  | c :: rest =>
    let r := splitOnChar sep rest
    if c = sep then [] :: r
    else
      match r with
      | [] => [[c]]
      | t :: ts => (c :: t) :: ts

/-- Model of Python `sep.join(parts)` for a one-character separator. -/
def joinSep (sep : Char) : List PyStr → PyStr
  | [] => []
  | [t] => t
  | t :: ts => t ++ sep :: joinSep sep ts

/-- Model of Python `", ".join(parts)`, the separator used when the scripts
re-assemble a Shopify tag string. -/
def joinCommaSpace : List PyStr → PyStr
  | [] => []
  | [t] => t
  | t :: ts => t ++ ',' :: ' ' :: joinCommaSpace ts

/-- Model of Python's `needle in hay` substring test. -/
def containsSub (needle : PyStr) : PyStr → Bool
  | [] => needle.isEmpty
  | c :: rest => needle.isPrefixOf (c :: rest) || containsSub needle rest

mutual

/-- Model of `re.sub(r'\s+', '-', s)`: every maximal whitespace run becomes
a single hyphen. -/
def collapseWs : PyStr → PyStr
  | [] => []
  | c :: rest =>
    if isSpaceChar c then '-' :: collapseWsSkip rest else c :: collapseWs rest

/-- Consumes the remainder of a whitespace run inside `collapseWs`. -/
def collapseWsSkip : PyStr → PyStr
  | [] => []
  | c :: rest =>
    if isSpaceChar c then collapseWsSkip rest else c :: collapseWs rest

end

/-- Model of Python `s.replace(old, new)` for a nonempty `old`: replaces
every non-overlapping occurrence, scanning left to right.  The fuel
argument only bounds the recursion; each step consumes at least one
character, so `pyReplace` below supplies enough. -/
def pyReplaceFuel (old new : PyStr) : Nat → PyStr → PyStr
  | 0, s => s
  | fuel + 1, s =>
    match s with
    | [] => []
    | c :: rest =>
      if old ≠ [] ∧ old.isPrefixOf (c :: rest) = true then
        new ++ pyReplaceFuel old new fuel (rest.drop (old.length - 1))
      else
        c :: pyReplaceFuel old new fuel rest

/-- Model of Python `s.replace(old, new)` for a nonempty `old`. -/
def pyReplace (old new s : PyStr) : PyStr := pyReplaceFuel old new s.length s

/-- Decimal digit characters. -/
def digitChars : PyStr := str "0123456789"

/-- The character for a decimal digit. -/
def digitChar (d : Nat) : Char := digitChars.getD d '0'

/-- Numeric value of a decimal digit character. -/
def digitVal (c : Char) : Nat := c.toNat - 48

/-- Big-endian decimal digits of a positive number (empty for zero); the
fuel argument only bounds the recursion and any `fuel ≥ n` is enough. -/
def natReprAux : Nat → Nat → PyStr
  | 0, _ => []
  | fuel + 1, n =>
    if n = 0 then [] else natReprAux fuel (n / 10) ++ [digitChar (n % 10)]

/-- Model of Python's decimal formatting of a nonnegative integer,
as used by f-strings such as `f"{base}-{suffix}"`. -/
def natRepr (n : Nat) : PyStr := if n = 0 then ['0'] else natReprAux (n + 1) n

/-- Reads decimal digits back into a number; inverse of `natReprAux`. -/
def parseDigits (s : PyStr) : Nat := s.foldl (fun a c => 10 * a + digitVal c) 0

theorem parseDigits_natReprAux : ∀ (fuel n : Nat), n ≤ fuel →
    parseDigits (natReprAux fuel n) = n := by
  intro fuel
  induction fuel with
  | zero =>
    intro n hn
    have : n = 0 := by omega
    subst this
    simp [natReprAux, parseDigits]
  | succ fuel ih =>
    intro n hn
    by_cases h : n = 0
    · subst h
      simp [natReprAux, parseDigits]
    · show parseDigits (natReprAux (fuel + 1) n) = n
      have hstep : natReprAux (fuel + 1) n =
          natReprAux fuel (n / 10) ++ [digitChar (n % 10)] := by
        simp only [natReprAux]
        rw [if_neg h]
      rw [hstep]
      have hle : n / 10 ≤ fuel := by
        have := Nat.div_lt_self (Nat.pos_of_ne_zero h) (show 1 < 10 by omega)
        omega
      have hrec := ih (n / 10) hle
      unfold parseDigits at hrec ⊢
      rw [List.foldl_append, hrec]
      have hd : n % 10 < 10 := Nat.mod_lt _ (by omega)
      have hdv : digitVal (digitChar (n % 10)) = n % 10 := by
        interval_cases h10 : n % 10 <;> decide
      simp [hdv]
      omega

theorem parseDigits_natRepr (n : Nat) : parseDigits (natRepr n) = n := by
  unfold natRepr
  by_cases h : n = 0
  · subst h
    decide
  · rw [if_neg h]
    exact parseDigits_natReprAux (n + 1) n (by omega)

theorem natRepr_injective : Function.Injective natRepr := by
  intro a b h
  have := parseDigits_natRepr a
  rw [h, parseDigits_natRepr] at this
  omega

theorem natRepr_ne_nil (n : Nat) : natRepr n ≠ [] := by
  unfold natRepr
  by_cases h : n = 0
  · simp [h]
  · rw [if_neg h]
    simp only [natReprAux]
    rw [if_neg h]
    simp

theorem natReprAux_digits : ∀ (fuel n : Nat) (c : Char), c ∈ natReprAux fuel n →
    48 ≤ c.toNat ∧ c.toNat ≤ 57 := by
  intro fuel
  induction fuel with
  | zero =>
    intro n c hc
    simp [natReprAux] at hc
  | succ fuel ih =>
    intro n c hc
    by_cases h : n = 0
    · subst h
      simp [natReprAux] at hc
    · have hstep : natReprAux (fuel + 1) n =
          natReprAux fuel (n / 10) ++ [digitChar (n % 10)] := by
        simp only [natReprAux]
        rw [if_neg h]
      rw [hstep] at hc
      rcases List.mem_append.mp hc with h1 | h2
      · exact ih (n / 10) c h1
      · have hd : n % 10 < 10 := Nat.mod_lt _ (by omega)
        have : c = digitChar (n % 10) := by simpa using h2
        subst this
        interval_cases h10 : n % 10 <;> decide

theorem natRepr_digits {n : Nat} {c : Char} (hc : c ∈ natRepr n) :
    48 ≤ c.toNat ∧ c.toNat ≤ 57 := by
  unfold natRepr at hc
  by_cases h : n = 0
  · rw [if_pos h] at hc
    simp at hc
    subst hc
    decide
  · rw [if_neg h] at hc
    exact natReprAux_digits (n + 1) n c hc

/-! ### Character-level facts about ASCII lowering -/

theorem toLower_of_not_upper {c : Char} (h : c.toNat < 65 ∨ 90 < c.toNat) :
    Char.toLower c = c := by
  unfold Char.toLower
  rw [if_neg]
  omega

theorem toNat_toLower_of_upper {c : Char} (h : 65 ≤ c.toNat ∧ c.toNat ≤ 90) :
    (Char.toLower c).toNat = c.toNat + 32 := by
  unfold Char.toLower
  rw [if_pos h]
  have hv : Nat.isValidChar (c.toNat + 32) := Or.inl (by omega)
  rw [Char.ofNat, dif_pos hv]
  rfl

theorem toLower_toLower (c : Char) : Char.toLower (Char.toLower c) = Char.toLower c := by
  by_cases h : 65 ≤ c.toNat ∧ c.toNat ≤ 90
  · have ht := toNat_toLower_of_upper h
    apply toLower_of_not_upper
    omega
  · have hc : Char.toLower c = c := toLower_of_not_upper (by omega)
    rw [hc, hc]

theorem lower_lower (s : PyStr) : lower (lower s) = lower s := by
  unfold lower
  rw [List.map_map]
  apply List.map_congr_left
  intro c _
  exact toLower_toLower c

theorem lower_append (a b : PyStr) : lower (a ++ b) = lower a ++ lower b := by
  simp [lower]

theorem lower_cons (c : Char) (s : PyStr) : lower (c :: s) = Char.toLower c :: lower s := rfl

/-! ### Tag handling: `shopify_remove_dsers_tag` and the `dsers-new` filter -/

/-- The processing marker tag. -/
def dsersNew : PyStr := str "dsers-new"

/-- Tag list sent by `shopify_remove_dsers_tag` (shopify_product_update_api.py,
lines 315-326): every comma-separated component is stripped, and components
whose stripped lowercase form equals `dsers-new` are dropped. -/
def updated_tags (tags : PyStr) : List PyStr :=
  ((splitOnChar ',' tags).map pyStrip).filter (fun t => !(lower t == dsersNew))

/-- The tag string carried by the mutation payload of `shopify_remove_dsers_tag`. -/
def removeDsersPayloadTags (tags : PyStr) : PyStr := joinCommaSpace (updated_tags tags)

/-- Selection predicate of `get_draft_dsers_products` (lines 279-287): an item
is eligible when some comma-separated component of its tag string contains
`dsers-new` as a substring, case-insensitively. -/
def hasDsersTag (tags : PyStr) : Bool :=
  (splitOnChar ',' tags).any (fun t => containsSub dsersNew (lower t))

/-! ### Facts about splitting, joining and stripping -/

theorem splitOnChar_ne_nil (sep : Char) (s : PyStr) : splitOnChar sep s ≠ [] := by
  induction s with
  | nil => simp [splitOnChar]
  | cons c rest ih =>
    unfold splitOnChar
    by_cases h : c = sep
    · simp [h]
    · rw [if_neg h]
      rcases hr : splitOnChar sep rest with _ | ⟨t, ts⟩
      · simp
      · simp

theorem splitOnChar_cons_sep (sep : Char) (rest : PyStr) :
    splitOnChar sep (sep :: rest) = [] :: splitOnChar sep rest := by
  simp only [splitOnChar]
  simp

theorem splitOnChar_cons_ne {sep c : Char} {rest : PyStr} {t : PyStr} {ts : List PyStr}
    (h : ¬ c = sep) (hr : splitOnChar sep rest = t :: ts) :
    splitOnChar sep (c :: rest) = (c :: t) :: ts := by
  simp only [splitOnChar]
  rw [hr, if_neg h]

theorem splitOnChar_append_no_sep {sep : Char} (a b : PyStr) (h : sep ∉ a) :
    splitOnChar sep (a ++ b) =
      (a ++ (splitOnChar sep b).headI) :: (splitOnChar sep b).tail := by
  induction a with
  | nil =>
    rcases hb : splitOnChar sep b with _ | ⟨t, ts⟩
    · exact absurd hb (splitOnChar_ne_nil sep b)
    · simp [hb]
  | cons c a' ih =>
    have hc : ¬ c = sep := by
      intro hcs
      exact h (by simp [hcs])
    have ha' : sep ∉ a' := fun hm => h (by simp [hm])
    have ih' := ih ha'
    simp only [List.cons_append]
    rw [splitOnChar_cons_ne hc ih']

theorem mem_splitOnChar_no_sep {sep : Char} {s : PyStr} {t : PyStr}
    (ht : t ∈ splitOnChar sep s) : sep ∉ t := by
  induction s generalizing t with
  | nil =>
    simp [splitOnChar] at ht
    simp [ht]
  | cons c rest ih =>
    unfold splitOnChar at ht
    by_cases h : c = sep
    · rw [if_pos h] at ht
      rcases List.mem_cons.mp ht with h1 | h2
      · simp [h1]
      · exact ih h2
    · rw [if_neg h] at ht
      rcases hr : splitOnChar sep rest with _ | ⟨t0, ts⟩
      · exact absurd hr (splitOnChar_ne_nil sep rest)
      · rw [hr] at ht
        rcases List.mem_cons.mp ht with h1 | h2
        · subst h1
          intro hm
          rcases List.mem_cons.mp hm with h3 | h4
          · exact h h3.symm
          · exact ih (hr ▸ List.mem_cons_self t0 ts) h4
        · exact ih (hr ▸ List.mem_cons.mpr (Or.inr h2))

theorem mem_of_mem_splitOnChar {sep : Char} {s t : PyStr} {c : Char}
    (ht : t ∈ splitOnChar sep s) (hc : c ∈ t) : c ∈ s := by
  induction s generalizing t with
  | nil =>
    simp [splitOnChar] at ht
    subst ht
    simp at hc
  | cons d rest ih =>
    unfold splitOnChar at ht
    by_cases h : d = sep
    · rw [if_pos h] at ht
      rcases List.mem_cons.mp ht with h1 | h2
      · subst h1
        simp at hc
      · exact List.mem_cons.mpr (Or.inr (ih h2 hc))
    · rw [if_neg h] at ht
      rcases hr : splitOnChar sep rest with _ | ⟨t0, ts⟩
      · exact absurd hr (splitOnChar_ne_nil sep rest)
      · rw [hr] at ht
        rcases List.mem_cons.mp ht with h1 | h2
        · subst h1
          rcases List.mem_cons.mp hc with h3 | h4
          · exact List.mem_cons.mpr (Or.inl h3)
          · exact List.mem_cons.mpr
              (Or.inr (ih (hr ▸ List.mem_cons_self t0 ts) h4))
        · exact List.mem_cons.mpr
            (Or.inr (ih (hr ▸ List.mem_cons.mpr (Or.inr h2)) hc))

theorem mem_of_mem_pyStrip {s : PyStr} {c : Char} (h : c ∈ pyStrip s) : c ∈ s := by
  unfold pyStrip at h
  rw [List.mem_reverse] at h
  have h1 := (List.dropWhile_sublist isSpaceChar).mem h
  rw [List.mem_reverse] at h1
  exact (List.dropWhile_sublist isSpaceChar).mem h1

theorem splitOnChar_joinCommaSpace (x : PyStr) (xs : List PyStr)
    (hx : ',' ∉ x) (hxs : ∀ t ∈ xs, ',' ∉ t) :
    splitOnChar ',' (joinCommaSpace (x :: xs)) =
      x :: xs.map (fun t => ' ' :: t) := by
  induction xs generalizing x with
  | nil =>
    show splitOnChar ',' (joinCommaSpace [x]) = [x]
    have : joinCommaSpace [x] = x ++ [] := by simp [joinCommaSpace]
    rw [this, splitOnChar_append_no_sep x [] hx]
    simp [splitOnChar]
  | cons y ys ih =>
    have hy : ',' ∉ y := hxs y (by simp)
    have hys : ∀ t ∈ ys, ',' ∉ t := fun t htm => hxs t (by simp [htm])
    have hrec := ih y hy hys
    show splitOnChar ',' (x ++ ',' :: ' ' :: joinCommaSpace (y :: ys)) = _
    rw [splitOnChar_append_no_sep x _ hx]
    have hstep : splitOnChar ',' (',' :: ' ' :: joinCommaSpace (y :: ys)) =
        [] :: splitOnChar ',' (' ' :: joinCommaSpace (y :: ys)) :=
      splitOnChar_cons_sep ',' _
    have hspace : splitOnChar ',' (' ' :: joinCommaSpace (y :: ys)) =
        (' ' :: y) :: (ys.map (fun t => ' ' :: t)) :=
      splitOnChar_cons_ne (by decide) hrec
    rw [hstep, hspace]
    simp

theorem containsSub_cons_false {d : Char} {n : PyStr} {c : Char} {m : PyStr}
    (hne : d ≠ c) (hm : containsSub (d :: n) m = false) :
    containsSub (d :: n) (c :: m) = false := by
  unfold containsSub
  rw [hm]
  simp [List.isPrefixOf]
  intro hdc
  exact absurd hdc hne

theorem hasDsersTag_joinCommaSpace_false (l : List PyStr)
    (hnc : ∀ t ∈ l, ',' ∉ t)
    (h : ∀ t ∈ l, containsSub dsersNew (lower t) = false) :
    hasDsersTag (joinCommaSpace l) = false := by
  cases l with
  | nil => decide
  | cons x xs =>
    unfold hasDsersTag
    rw [splitOnChar_joinCommaSpace x xs (hnc x (by simp))
      (fun t htm => hnc t (by simp [htm]))]
    have hx := h x (by simp)
    have hxs' : ∀ t ∈ xs, containsSub dsersNew (lower (' ' :: t)) = false := by
      intro t htm
      have h1 : lower (' ' :: t) = ' ' :: lower t := by
        rw [lower_cons]
        have : Char.toLower ' ' = ' ' := by decide
        rw [this]
      rw [h1]
      have hd : dsersNew = 'd' :: str "sers-new" := rfl
      rw [hd]
      exact containsSub_cons_false (by decide) (hd ▸ h t (by simp [htm]))
    rw [List.any_eq_false]
    intro t htm
    rcases List.mem_cons.mp htm with h1 | h2
    · subst h1
      simp [hx]
    · rcases List.mem_map.mp h2 with ⟨u, hu, hut⟩
      subst hut
      simp [hxs' u hu]

theorem mem_updated_tags_comma_free {tags : PyStr} {t : PyStr}
    (h : t ∈ updated_tags tags) : ',' ∉ t := by
  unfold updated_tags at h
  have h1 := (List.mem_filter.mp h).1
  rcases List.mem_map.mp h1 with ⟨u, hu, hut⟩
  subst hut
  intro hc
  exact mem_splitOnChar_no_sep hu (mem_of_mem_pyStrip hc)

/-! ### JSON values and a model of `json.loads`

The parser covers the JSON subset the scripts exchange with the content
generator (null, booleans, integers, strings with the common escapes,
arrays, objects); like Python's `json.loads` it rejects input with
non-whitespace left over after the value. -/

inductive Json where
  | null
  | bool (b : Bool)
  | num (n : Int)
  | str (s : PyStr)
  | arr (xs : List Json)
  | obj (kvs : List (PyStr × Json))

/-- JSON insignificant whitespace. -/
def isJsonWs (c : Char) : Bool := c = ' ' || c = '\t' || c = '\n' || c = '\r'

/-- Translation of a JSON string escape character. -/
def escChar (c : Char) : Option Char :=
  if c = '"' then some '"'
  else if c = '\\' then some '\\'
  else if c = '/' then some '/'
  else if c = 'n' then some '\n'
  else if c = 't' then some '\t'
  else if c = 'r' then some '\r'
  else if c = 'b' then some '\x08'
  else if c = 'f' then some '\x0c'
  else none

/-- Parses the body of a JSON string after the opening quote, returning the
decoded content and the input remaining after the closing quote. -/
def parseStrBody : PyStr → Option (PyStr × PyStr)
  | [] => none
  | '"' :: rest => some ([], rest)
  | '\\' :: [] => none
  | '\\' :: e :: rest2 =>
    match escChar e with
    | none => none
    | some ec => (parseStrBody rest2).map (fun p => (ec :: p.1, p.2))
  | c :: rest => (parseStrBody rest).map (fun p => (c :: p.1, p.2))

/-- Parses an optionally signed decimal integer token. -/
def parseIntTok (s : PyStr) : Option (Int × PyStr) :=
  match s with
  | '-' :: rest =>
    let ds := rest.takeWhile Char.isDigit
    if ds.isEmpty then none
    else some (-(parseDigits ds : Int), rest.dropWhile Char.isDigit)
  | _ =>
    let ds := s.takeWhile Char.isDigit
    if ds.isEmpty then none
    else some ((parseDigits ds : Int), s.dropWhile Char.isDigit)

mutual

/-- Fuel-indexed recursive-descent parser for one JSON value. -/
def parseVal : Nat → PyStr → Option (Json × PyStr)
  | 0, _ => none
  | fuel + 1, s0 =>
    match s0.dropWhile isJsonWs with
    | [] => none
    | c :: rest =>
      if c = '\x7b' then
        match rest.dropWhile isJsonWs with
        | '\x7d' :: r => some (Json.obj [], r)
        | s2 => (parseMembers fuel s2).map (fun p => (Json.obj p.1, p.2))
      else if c = '[' then
        match rest.dropWhile isJsonWs with
        | ']' :: r => some (Json.arr [], r)
        | s2 => (parseElems fuel s2).map (fun p => (Json.arr p.1, p.2))
      else if c = '"' then
        (parseStrBody rest).map (fun p => (Json.str p.1, p.2))
      else if c = 't' then
        if (str "rue").isPrefixOf rest then some (Json.bool true, rest.drop 3) else none
      else if c = 'f' then
        if (str "alse").isPrefixOf rest then some (Json.bool false, rest.drop 4) else none
      else if c = 'n' then
        if (str "ull").isPrefixOf rest then some (Json.null, rest.drop 3) else none
      else
        (parseIntTok (c :: rest)).map (fun p => (Json.num p.1, p.2))

/-- Parses the elements of a nonempty JSON array up to the closing bracket. -/
def parseElems : Nat → PyStr → Option (List Json × PyStr)
  | 0, _ => none
  | fuel + 1, s =>
    match parseVal fuel s with
    | none => none
    | some (v, r) =>
      match r.dropWhile isJsonWs with
      | ',' :: r3 => (parseElems fuel r3).map (fun p => (v :: p.1, p.2))
      | ']' :: r3 => some ([v], r3)
      | _ => none

/-- Parses the members of a nonempty JSON object up to the closing brace. -/
def parseMembers : Nat → PyStr → Option (List (PyStr × Json) × PyStr)
  | 0, _ => none
  | fuel + 1, s =>
    match s.dropWhile isJsonWs with
    | '"' :: rest =>
      match parseStrBody rest with
      | none => none
      | some (k, r) =>
        match r.dropWhile isJsonWs with
        | ':' :: r3 =>
          match parseVal fuel r3 with
          | none => none
          | some (v, r4) =>
            match r4.dropWhile isJsonWs with
            | ',' :: r6 => (parseMembers fuel r6).map (fun p => ((k, v) :: p.1, p.2))
            | '\x7d' :: r6 => some ([(k, v)], r6)
            | _ => none
        | _ => none
    | _ => none

end

/-- Model of Python `json.loads`: parse one value, then require that only
whitespace remains. -/
def json_loads (s : PyStr) : Option Json :=
  match parseVal (s.length + 1) s with
  | some (v, rest) => if (rest.dropWhile isJsonWs).isEmpty then some v else none
  | none => none

/-- Lookup in a parsed JSON object, later duplicate keys winning, as in a
Python dict built by `json.loads`; model of `data.get(key)`. -/
def jget (j : Json) (k : PyStr) : Option Json :=
  match j with
  | Json.obj kvs => (kvs.reverse.find? (fun kv => kv.1 == k)).map Prod.snd
  | _ => none

/-- Model of Python `data.get(key, default)`. -/
def jgetD (j : Json) (k : PyStr) (d : Json) : Json := (jget j k).getD d

/-! ### The `safe_json_loads` extraction

`safe_json_loads` (shopify_product_update_api.py lines 331-337, and
identically shopify_product_description_update.py lines 43-52) runs
`re.search` with the pattern "backslash-brace dot-star backslash-brace"
under DOTALL and feeds the match to `json.loads`, returning an empty dict
on any failure.  `reSearchBraceBlock` is the operational model of that
regex search: the engine tries each start position left to right; at an
opening brace the greedy dot-star extends to the last closing brace of the
remaining text, or the engine moves on when none exists. -/

/-- Longest prefix of `s` that ends with a closing brace, if any: what the
greedy backtracking dot-star keeps of the text after the opening brace. -/
def lastBraceTrunc (s : PyStr) : Option PyStr :=
  let r := s.reverse.dropWhile (fun c => !(c == '\x7d'))
  if r.isEmpty then none else some r.reverse

/-- Operational model of `re.search` for the brace pattern under DOTALL. -/
def reSearchBraceBlock : PyStr → Option PyStr
  | [] => none
  | c :: rest =>
    if c = '\x7b' then
      match lastBraceTrunc rest with
      | some body => some ('\x7b' :: body)
      | none => reSearchBraceBlock rest
    else reSearchBraceBlock rest

/-- Model of `safe_json_loads`. -/
def safe_json_loads (text : PyStr) : Json :=
  match reSearchBraceBlock text with
  | none => Json.obj []
  | some block => (json_loads block).getD (Json.obj [])

/-- Modelled from the spec: claim C4 describes the extraction as locating
the first *balanced* brace-delimited block.  This is that description
(depth counting from the first opening brace, ignoring string-literal
context), written to be compared with what the code does. -/
def balancedFrom : Nat → PyStr → PyStr → Option PyStr
  | _, _, [] => none
  | depth, acc, c :: rest =>
    if c = '\x7d' then
      if depth = 1 then some (c :: acc).reverse
      else balancedFrom (depth - 1) (c :: acc) rest
    else if c = '\x7b' then balancedFrom (depth + 1) (c :: acc) rest
    else balancedFrom depth (c :: acc) rest

/-- Modelled from the spec: the first balanced brace-delimited block of the
text, per claim C4's wording. -/
def firstBalancedBlock (s : PyStr) : Option PyStr :=
  match s.dropWhile (fun c => !(c == '\x7b')) with
  | [] => none
  | c :: rest => balancedFrom 1 [c] rest

/-- Modelled from the amended claim wording: the span from the first opening
brace of the text through the last closing brace of the text, computed by a
different route than the operational `reSearchBraceBlock`. -/
def specGreedySpan (s : PyStr) : Option PyStr :=
  if 2 ≤ (((s.dropWhile (fun c => !(c == '\x7b'))).reverse.dropWhile
        (fun c => !(c == '\x7d'))).reverse).length
  then some (((s.dropWhile (fun c => !(c == '\x7b'))).reverse.dropWhile
        (fun c => !(c == '\x7d'))).reverse)
  else none

/-- What the amended claim says `safe_json_loads` computes. -/
def specSafeLoads (text : PyStr) : Json :=
  match specGreedySpan text with
  | none => Json.obj []
  | some block => (json_loads block).getD (Json.obj [])

/-! ### The identifier registry and the minters

`shopify_product_update_api.py` keeps four module-level sets
(`seen_handles`, `existing_handles`, `seen_titles`, `existing_titles`);
they are modelled as lists threaded through the run, with Python's `in`
as list membership.  The unbounded `while` loops of
`generate_unique_handle` (lines 386-399) and `ensure_unique_title`
(lines 401-411) walk the candidate sequences `base`, `base-1`, `base-2`,
… and `t`, `t (1)`, `t (2)`, …; they are modelled by `mintIdx`, a
fuel-bounded search for the first unreserved index.  The fuel supplied by
the minters is one more than the registry size, which the pigeonhole
argument `exists_cand_not_mem` below proves sufficient, so the
fuel-exhausted branch (which returns the next untried candidate) is never
reached. -/

structure RunState where
  seen_handles : List PyStr
  existing_handles : List PyStr
  seen_titles : List PyStr
  existing_titles : List PyStr

/-- The duplicate check of `generate_unique_handle`:
`candidate in seen_handles or candidate in existing_handles`. -/
def handleReserved (st : RunState) (c : PyStr) : Bool :=
  decide (c ∈ st.seen_handles) || decide (c ∈ st.existing_handles)

/-- The duplicate check of `ensure_unique_title`:
`candidate.lower() in seen_titles or candidate.lower() in existing_titles`. -/
def titleReserved (st : RunState) (c : PyStr) : Bool :=
  decide (lower c ∈ st.seen_titles) || decide (lower c ∈ st.existing_titles)

/-- Characters kept by `re.sub(r'[^a-z0-9\s-]', '', base)`. -/
def isKeptChar (c : Char) : Bool :=
  (97 ≤ c.toNat && c.toNat ≤ 122) || (48 ≤ c.toNat && c.toNat ≤ 57) ||
    c == '-' || isSpaceChar c

/-- Slug normalisation of `generate_unique_handle` (lines 387-390):
lowercase `f"{primary_kw} {descriptor}"`, keep only `[a-z0-9\s-]`,
strip, collapse whitespace runs to single hyphens, keep the first five
hyphen-separated pieces. -/
def slugBase (primary_kw descriptor : PyStr) : PyStr :=
  joinSep '-'
    ((splitOnChar '-'
      (collapseWs
        (pyStrip ((lower (primary_kw ++ ' ' :: descriptor)).filter isKeptChar)))).take 5)

/-- The candidate sequence of the handle loop: `base`, `base-1`, `base-2`, … -/
def candAt (base : PyStr) : Nat → PyStr
  | 0 => base
  | k + 1 => base ++ '-' :: natRepr (k + 1)

/-- The candidate sequence of the title loop: `t`, `t (1)`, `t (2)`, … -/
def candTitleAt (t : PyStr) : Nat → PyStr
  | 0 => t
  | k + 1 => t ++ ' ' :: '(' :: (natRepr (k + 1) ++ [')'])

/-- First index at or after `k` whose candidate is unreserved, fuel-bounded. -/
def mintIdx (reserved : Nat → Bool) : Nat → Nat → Nat
  | 0, k => k
  | fuel + 1, k => if reserved k then mintIdx reserved fuel (k + 1) else k

/-- Model of `generate_unique_handle` (lines 386-399): normalise the base,
probe `base`, `base-1`, `base-2`, … against both handle sets until an
unreserved candidate appears, then add it to both sets and return it. -/
def generate_unique_handle (st : RunState) (primary_kw descriptor : PyStr) :
    PyStr × RunState :=
  let base := slugBase primary_kw descriptor
  let fuel := st.seen_handles.length + st.existing_handles.length + 1
  let c := candAt base (mintIdx (fun k => handleReserved st (candAt base k)) fuel 0)
  (c, { st with seen_handles := c :: st.seen_handles,
                existing_handles := c :: st.existing_handles })

/-- The brand substring removed by `ensure_unique_title`. -/
def brandName : PyStr := str "Sports eHarmony Living"

/-- Model of `ensure_unique_title` (lines 401-411): drop the brand name,
strip, probe `t`, `t (1)`, `t (2)`, … — comparing lowercased candidates
against both title sets — until an unreserved candidate appears, then add
its lowercase form to both sets and return it (in original case). -/
def ensure_unique_title (st : RunState) (title : PyStr) : PyStr × RunState :=
  let t := pyStrip (pyReplace brandName [] title)
  let fuel := st.seen_titles.length + st.existing_titles.length + 1
  let c := candTitleAt t (mintIdx (fun k => titleReserved st (candTitleAt t k)) fuel 0)
  (c, { st with seen_titles := lower c :: st.seen_titles,
                existing_titles := lower c :: st.existing_titles })

/-- Model of `ensure_unique_title` from
`shopify_product_description_update.py` (lines 134-150): the ledger-file
variant; case-sensitive comparison against the lines of
`used_titles.txt`, no brand stripping, numeric-suffix probe starting at
`(1)`, then the accepted title is appended to the ledger. -/
def ensure_unique_title_csv (existing : List PyStr) (title : PyStr) :
    PyStr × List PyStr :=
  let t :=
    if title ∈ existing then
      candTitleAt title
        (mintIdx (fun k => decide (candTitleAt title k ∈ existing))
          (existing.length + 1) 1)
    else title
  (t, existing ++ [t])

/-- Modelled from the spec: section 4.4's `mintTitle` two-tier remediation —
on a collision, up to five regeneration calls to the content generator
(`regen i` is the title produced by the i-th such call), then a
numeric-suffix fallback.  No code in the repository implements this tier;
the definition exists to be compared against `ensure_unique_title`.
The second component counts the regeneration calls made. -/
def mintTitleSpec (regen : Nat → PyStr) (st : RunState) (title : PyStr) :
    PyStr × Nat :=
  let t := pyStrip (pyReplace brandName [] title)
  if titleReserved st t then
    mintTitleSpecAttempt regen st t 5 0
  else (t, 0)
where
  /-- Regeneration attempts `used+1`, …, 5, then the numeric fallback. -/
  mintTitleSpecAttempt (regen : Nat → PyStr) (st : RunState) (t : PyStr) :
      Nat → Nat → PyStr × Nat
  | 0, used =>
    (candTitleAt t
      (mintIdx (fun k => titleReserved st (candTitleAt t k))
        (st.seen_titles.length + st.existing_titles.length + 1) 1), used)
  | fuel + 1, used =>
    let c := regen (used + 1)
    if titleReserved st c then mintTitleSpecAttempt regen st t fuel (used + 1)
    else (c, used + 1)

/-! ### Correctness of the collision-probe loop -/

theorem mintIdx_spec (res : Nat → Bool) :
    ∀ (fuel k : Nat), (∃ j, j < fuel ∧ res (k + j) = false) →
      res (mintIdx res fuel k) = false ∧ k ≤ mintIdx res fuel k ∧
        ∀ i, k ≤ i → i < mintIdx res fuel k → res i = true := by
  intro fuel
  induction fuel with
  | zero =>
    rintro k ⟨j, hj, _⟩
    omega
  | succ fuel ih =>
    rintro k ⟨j, hj, hres⟩
    cases hk : res k with
    | false =>
      have hm : mintIdx res (fuel + 1) k = k := by
        simp [mintIdx, hk]
      rw [hm]
      exact ⟨hk, le_refl k, fun i h1 h2 => absurd (h1.trans_lt h2) (lt_irrefl k)⟩
    | true =>
      have hj0 : j ≠ 0 := by
        intro h0
        subst h0
        simp at hres
        rw [hres] at hk
        cases hk
      have hex : ∃ j', j' < fuel ∧ res ((k + 1) + j') = false := by
        refine ⟨j - 1, by omega, ?_⟩
        have heq : (k + 1) + (j - 1) = k + j := by omega
        rw [heq]
        exact hres
      have hrec := ih (k + 1) hex
      have hm : mintIdx res (fuel + 1) k = mintIdx res fuel (k + 1) := by
        simp [mintIdx, hk]
      rw [hm]
      refine ⟨hrec.1, by omega, ?_⟩
      intro i h1 h2
      by_cases hik : i = k
      · subst hik
        exact hk
      · exact hrec.2.2 i (by omega) h2

theorem exists_cand_not_mem (L : List PyStr) (cand : Nat → PyStr)
    (hinj : Function.Injective cand) :
    ∃ j, j ≤ L.length ∧ cand j ∉ L := by
  by_contra hcon
  push_neg at hcon
  have hsub : (Finset.range (L.length + 1)).image cand ⊆ L.toFinset := by
    intro x hx
    rcases Finset.mem_image.mp hx with ⟨j, hj, rfl⟩
    have hj2 := Finset.mem_range.mp hj
    exact List.mem_toFinset.mpr (hcon j (by omega))
  have h1 := Finset.card_le_card hsub
  rw [Finset.card_image_of_injective _ hinj, Finset.card_range] at h1
  have h2 := List.toFinset_card_le L
  omega

theorem candAt_injective (base : PyStr) : Function.Injective (candAt base) := by
  intro i j hij
  match i, j with
  | 0, 0 => rfl
  | 0, b + 1 =>
    exfalso
    simp only [candAt] at hij
    have hlen := congrArg List.length hij
    simp at hlen
  | a + 1, 0 =>
    exfalso
    simp only [candAt] at hij
    have hlen := congrArg List.length hij
    simp at hlen
  | a + 1, b + 1 =>
    simp only [candAt] at hij
    have h2 := List.append_cancel_left hij
    have h3 : natRepr (a + 1) = natRepr (b + 1) := by
      injection h2
    have := natRepr_injective h3
    omega

theorem candTitleAt_injective (t : PyStr) : Function.Injective (candTitleAt t) := by
  intro i j hij
  match i, j with
  | 0, 0 => rfl
  | 0, b + 1 =>
    exfalso
    simp only [candTitleAt] at hij
    have hlen := congrArg List.length hij
    simp at hlen
  | a + 1, 0 =>
    exfalso
    simp only [candTitleAt] at hij
    have hlen := congrArg List.length hij
    simp at hlen
  | a + 1, b + 1 =>
    simp only [candTitleAt] at hij
    have h2 := List.append_cancel_left hij
    have h3 : natRepr (a + 1) ++ [')'] = natRepr (b + 1) ++ [')'] := by
      injection h2 with _ h4
      injection h4
    have h5 := List.append_cancel_right h3
    have := natRepr_injective h5
    omega

theorem handleReserved_false_iff {st : RunState} {c : PyStr} :
    handleReserved st c = false ↔
      c ∉ st.seen_handles ∧ c ∉ st.existing_handles := by
  simp [handleReserved]

theorem titleReserved_false_iff {st : RunState} {c : PyStr} :
    titleReserved st c = false ↔
      lower c ∉ st.seen_titles ∧ lower c ∉ st.existing_titles := by
  simp [titleReserved]

theorem exists_handle_free (st : RunState) (base : PyStr) :
    ∃ j, j < st.seen_handles.length + st.existing_handles.length + 1 ∧
      handleReserved st (candAt base j) = false := by
  obtain ⟨j, hj, hnm⟩ := exists_cand_not_mem
    (st.seen_handles ++ st.existing_handles) (candAt base) (candAt_injective base)
  rw [List.length_append] at hj
  refine ⟨j, by omega, ?_⟩
  rw [handleReserved_false_iff]
  rw [List.mem_append] at hnm
  push_neg at hnm
  exact hnm

theorem lower_natRepr (n : Nat) : lower (natRepr n) = natRepr n := by
  have h : ∀ c ∈ natRepr n, Char.toLower c = id c := by
    intro c hc
    have := natRepr_digits hc
    exact toLower_of_not_upper (by omega)
  unfold lower
  rw [List.map_congr_left h, List.map_id]

theorem lower_candTitleAt (t : PyStr) (k : Nat) :
    lower (candTitleAt t k) = candTitleAt (lower t) k := by
  cases k with
  | zero => rfl
  | succ k =>
    simp only [candTitleAt]
    rw [lower_append, lower_cons, lower_cons, lower_append, lower_natRepr]
    have h1 : Char.toLower ' ' = ' ' := by decide
    have h2 : Char.toLower '(' = '(' := by decide
    have h3 : lower [')'] = [')'] := by decide
    rw [h1, h2, h3]

theorem exists_title_free (st : RunState) (t : PyStr) :
    ∃ j, j < st.seen_titles.length + st.existing_titles.length + 1 ∧
      titleReserved st (candTitleAt t j) = false := by
  obtain ⟨j, hj, hnm⟩ := exists_cand_not_mem
    (st.seen_titles ++ st.existing_titles) (candTitleAt (lower t))
    (candTitleAt_injective (lower t))
  rw [List.length_append] at hj
  refine ⟨j, by omega, ?_⟩
  rw [titleReserved_false_iff, lower_candTitleAt]
  rw [List.mem_append] at hnm
  push_neg at hnm
  exact hnm

/-- Behaviour of `generate_unique_handle` on an arbitrary registry state:
the returned handle is unreserved, it is the first unreserved entry of the
candidate sequence `base`, `base-1`, `base-2`, …, and the new state adds
exactly it to both handle sets, leaving the title sets alone. -/
theorem generate_unique_handle_spec (st : RunState) (p d : PyStr) :
    handleReserved st (generate_unique_handle st p d).1 = false ∧
    (∃ k, (generate_unique_handle st p d).1 = candAt (slugBase p d) k ∧
      ∀ j < k, handleReserved st (candAt (slugBase p d) j) = true) ∧
    (generate_unique_handle st p d).2 =
      ⟨(generate_unique_handle st p d).1 :: st.seen_handles,
       (generate_unique_handle st p d).1 :: st.existing_handles,
       st.seen_titles, st.existing_titles⟩ := by
  obtain ⟨j, hj, hfree⟩ := exists_handle_free st (slugBase p d)
  have hm := mintIdx_spec (fun k => handleReserved st (candAt (slugBase p d) k))
    (st.seen_handles.length + st.existing_handles.length + 1) 0
    ⟨j, hj, by simpa using hfree⟩
  refine ⟨hm.1, ⟨mintIdx _ _ 0, rfl, fun i hi => hm.2.2 i (by omega) hi⟩, rfl⟩

/-- Behaviour of `ensure_unique_title` on an arbitrary registry state:
the returned title's lowercase form is unreserved, the title is the first
unreserved entry of the candidate sequence `t`, `t (1)`, `t (2)`, … for
the brand-stripped `t`, and the new state adds exactly its lowercase form
to both title sets, leaving the handle sets alone. -/
theorem ensure_unique_title_spec (st : RunState) (title : PyStr) :
    titleReserved st (ensure_unique_title st title).1 = false ∧
    (∃ k, (ensure_unique_title st title).1 =
        candTitleAt (pyStrip (pyReplace brandName [] title)) k ∧
      ∀ j < k, titleReserved st
        (candTitleAt (pyStrip (pyReplace brandName [] title)) j) = true) ∧
    (ensure_unique_title st title).2 =
      ⟨st.seen_handles, st.existing_handles,
       lower (ensure_unique_title st title).1 :: st.seen_titles,
       lower (ensure_unique_title st title).1 :: st.existing_titles⟩ := by
  obtain ⟨j, hj, hfree⟩ :=
    exists_title_free st (pyStrip (pyReplace brandName [] title))
  have hm := mintIdx_spec
    (fun k => titleReserved st (candTitleAt (pyStrip (pyReplace brandName [] title)) k))
    (st.seen_titles.length + st.existing_titles.length + 1) 0
    ⟨j, hj, by simpa using hfree⟩
  refine ⟨hm.1, ⟨mintIdx _ _ 0, rfl, fun i hi => hm.2.2 i (by omega) hi⟩, rfl⟩

/-! ### The minted handle is already lowercase -/

theorem collapseWs_chars : ∀ (s : PyStr) (c : Char),
    (c ∈ collapseWs s → c = '-' ∨ (c ∈ s ∧ isSpaceChar c = false)) ∧
    (c ∈ collapseWsSkip s → c = '-' ∨ (c ∈ s ∧ isSpaceChar c = false)) := by
  intro s
  induction s with
  | nil =>
    intro c
    constructor <;> intro hc <;> simp [collapseWs, collapseWsSkip] at hc
  | cons d rest ih =>
    intro c
    constructor
    · intro hc
      cases hd : isSpaceChar d with
      | true =>
        simp only [collapseWs, hd, if_true] at hc
        rcases List.mem_cons.mp hc with h1 | h2
        · exact Or.inl h1
        · rcases (ih c).2 h2 with h3 | ⟨h4, h5⟩
          · exact Or.inl h3
          · exact Or.inr ⟨List.mem_cons.mpr (Or.inr h4), h5⟩
      | false =>
        simp only [collapseWs, hd, if_false] at hc
        rcases List.mem_cons.mp hc with h1 | h2
        · subst h1
          exact Or.inr ⟨List.mem_cons_self _ _, hd⟩
        · rcases (ih c).1 h2 with h3 | ⟨h4, h5⟩
          · exact Or.inl h3
          · exact Or.inr ⟨List.mem_cons.mpr (Or.inr h4), h5⟩
    · intro hc
      cases hd : isSpaceChar d with
      | true =>
        simp only [collapseWsSkip, hd, if_true] at hc
        rcases (ih c).2 hc with h3 | ⟨h4, h5⟩
        · exact Or.inl h3
        · exact Or.inr ⟨List.mem_cons.mpr (Or.inr h4), h5⟩
      | false =>
        simp only [collapseWsSkip, hd, if_false] at hc
        rcases List.mem_cons.mp hc with h1 | h2
        · subst h1
          exact Or.inr ⟨List.mem_cons_self _ _, hd⟩
        · rcases (ih c).1 h2 with h3 | ⟨h4, h5⟩
          · exact Or.inl h3
          · exact Or.inr ⟨List.mem_cons.mpr (Or.inr h4), h5⟩

theorem joinSep_chars {sep : Char} {l : List PyStr} {c : Char}
    (hc : c ∈ joinSep sep l) : c = sep ∨ ∃ t ∈ l, c ∈ t := by
  induction l with
  | nil => simp [joinSep] at hc
  | cons t ts ih =>
    cases ts with
    | nil =>
      simp only [joinSep] at hc
      exact Or.inr ⟨t, by simp, hc⟩
    | cons u us =>
      simp only [joinSep] at hc
      rcases List.mem_append.mp hc with h1 | h2
      · exact Or.inr ⟨t, by simp, h1⟩
      · rcases List.mem_cons.mp h2 with h3 | h4
        · exact Or.inl h3
        · rcases ih h4 with h5 | ⟨v, hv, hcv⟩
          · exact Or.inl h5
          · exact Or.inr ⟨v, List.mem_cons.mpr (Or.inr hv), hcv⟩

theorem slugBase_lower_fixed (p d : PyStr) :
    ∀ c ∈ slugBase p d, Char.toLower c = c := by
  intro c hc
  unfold slugBase at hc
  rcases joinSep_chars hc with h1 | ⟨t, ht, hct⟩
  · subst h1
    decide
  · have ht2 : t ∈ splitOnChar '-'
        (collapseWs (pyStrip ((lower (p ++ ' ' :: d)).filter isKeptChar))) :=
      List.take_subset _ _ ht
    have hcs : c ∈ collapseWs (pyStrip ((lower (p ++ ' ' :: d)).filter isKeptChar)) :=
      mem_of_mem_splitOnChar ht2 hct
    rcases (collapseWs_chars _ c).1 hcs with h2 | ⟨h3, h4⟩
    · subst h2
      decide
    · have h5 : c ∈ (lower (p ++ ' ' :: d)).filter isKeptChar :=
        mem_of_mem_pyStrip h3
      have h6 := (List.mem_filter.mp h5).2
      unfold isKeptChar at h6
      simp only [Bool.or_eq_true, Bool.and_eq_true, decide_eq_true_eq, beq_iff_eq] at h6
      simp only [isSpaceChar, Bool.or_eq_true, decide_eq_true_eq] at h4
      apply toLower_of_not_upper
      rcases h6 with ((⟨ha, hb⟩ | ⟨ha, hb⟩) | hsub) | hsp
      · omega
      · omega
      · subst hsub
        decide
      · simp only [isSpaceChar, Bool.or_eq_true, decide_eq_true_eq] at hsp
        simp only [Bool.or_eq_false_iff, decide_eq_false_iff_not] at h4
        omega

theorem lower_candAt_slug (p d : PyStr) (k : Nat) :
    lower (candAt (slugBase p d) k) = candAt (slugBase p d) k := by
  have hbase : lower (slugBase p d) = slugBase p d := by
    have h : ∀ c ∈ slugBase p d, Char.toLower c = id c := by
      intro c hc
      exact slugBase_lower_fixed p d c hc
    unfold lower
    rw [List.map_congr_left h, List.map_id]
  cases k with
  | zero => exact hbase
  | succ k =>
    simp only [candAt]
    rw [lower_append, hbase, lower_cons, lower_natRepr]
    have h1 : Char.toLower '-' = '-' := by decide
    rw [h1]

/-! ### Keyword extraction (`generate_keywords`, both variants) -/

/-- The fixed fallback pair `("product", ["shop", "buy online", "best deal"])`. -/
def fallbackPair : Json × Json :=
  (Json.str (str "product"),
   Json.arr [Json.str (str "shop"), Json.str (str "buy online"),
             Json.str (str "best deal")])

/-- Model of `generate_keywords` (shopify_product_update_api.py lines
361-384).  The adapter response is `none` when the OpenAI call raises
(caught by the bare `except`), otherwise the response text; the function
strips it, extracts JSON with `safe_json_loads`, and reads each field
with an independent `data.get(…, default)`. -/
def generate_keywords (resp : Option PyStr) : Json × Json :=
  match resp with
  | none => fallbackPair
  | some t =>
    (jgetD (safe_json_loads (pyStrip t)) (str "primary") (Json.str (str "product")),
     jgetD (safe_json_loads (pyStrip t)) (str "related")
       (Json.arr [Json.str (str "shop"), Json.str (str "buy online"),
                  Json.str (str "best deal")]))

/-- Model of `generate_keywords` from
`shopify_product_description_update.py` (lines 79-108): this variant
checks `"primary" in data and "related" in data` and falls back to the
fixed pair when either field is missing. -/
def generate_keywords_csv (resp : Option PyStr) : Json × Json :=
  match resp with
  | none => fallbackPair
  | some t =>
    match jget (safe_json_loads (pyStrip t)) (str "primary"),
          jget (safe_json_loads (pyStrip t)) (str "related") with
    | some pv, some rv => (pv, rv)
    | _, _ => fallbackPair

/-! ### Products, pages and the paginated listers

A remote listing is modelled as the sequence of page responses the server
would return, each carrying its products and the next-page cursor
extracted from the `Link` header (`none` when the header has no
`rel="next"` entry).  The listers walk that sequence exactly as the
`while url:` loops do: fetch, accumulate, continue only when a cursor is
present. -/

structure Product where
  id : Nat
  handle : PyStr
  title : PyStr
  tags : PyStr
  body_html : PyStr
  product_type : PyStr
deriving DecidableEq

structure PageResp where
  products : List Product
  next : Option PyStr
deriving DecidableEq

/-- Model of `get_products_by_tag` (shopify_price_update_by_tag.py lines
21-34): per page, keep the products whose whole tag string contains the
query tag case-insensitively, and follow the cursor while one exists. -/
def get_products_by_tag (tag : PyStr) : List PageResp → List Product
  | [] => []
  | r :: rest =>
    r.products.filter (fun p => containsSub (lower tag) (lower p.tags)) ++
      (match r.next with
       | some _ => get_products_by_tag tag rest
       | none => [])

/-- Model of `preload_existing_handles_titles`
(shopify_product_update_api.py lines 255-277): walk all pages, recording
`p["handle"].strip().lower()` and `p["title"].strip().lower()` of every
product; returns the (handle, title) registries seeded by the scan. -/
def preload_existing_handles_titles : List PageResp → List PyStr × List PyStr
  | [] => ([], [])
  | r :: rest =>
    match r.next with
    | some _ =>
      (r.products.map (fun p => lower (pyStrip p.handle)) ++
         (preload_existing_handles_titles rest).1,
       r.products.map (fun p => lower (pyStrip p.title)) ++
         (preload_existing_handles_titles rest).2)
    | none =>
      (r.products.map (fun p => lower (pyStrip p.handle)),
       r.products.map (fun p => lower (pyStrip p.title)))

/-- Model of `get_draft_dsers_products` (lines 279-287): one single
request — the first page only, no cursor following — filtered by the
`dsers-new` tag predicate. -/
def get_draft_dsers_products : List PageResp → List Product
  | [] => []
  | pg :: _ => pg.products.filter (fun p => hasDsersTag p.tags)

/-- A well-formed response sequence: every page but the last carries a
next cursor and the last page carries none. -/
def ChainPages : List PageResp → Prop
  | [] => True
  | [r] => r.next = none
  | r :: rest => r.next.isSome = true ∧ ChainPages rest

/-! ### The per-item update workflow of `main` (lines 461-488)

The remote calls a workflow step issues are recorded as `ApiCall` values,
in order.  The values produced by the OpenAI-backed helpers — the primary
keyword, the descriptor (first related keyword or `"product"`), and the
synthesized content triple — enter the workflow as the oracle input
`GenMaterial`; every theorem below holds for all values of that input,
hence for whatever the generator returns. -/

inductive ApiCall where
  | updateProduct (id : Nat) (title body_html handle seo_title seo_meta : PyStr)
  | createRedirect (path target : PyStr)
  | putTags (id : Nat) (tags : PyStr)
deriving DecidableEq

/-- The path base used by `shopify_create_redirect` (lines 304-313). -/
def productsPath : PyStr := str "/products/"

structure GenMaterial where
  primary_kw : PyStr
  descriptor : PyStr
  description_html : PyStr
  seo_title : PyStr
  seo_meta : PyStr

structure ItemResult where
  state : RunState
  new_handle : PyStr
  new_title : PyStr
  calls : List ApiCall

/-- One iteration of the loop in `main`: mint the handle, finalise the
title, update the product, create a redirect only when the handle
changed, then clear the `dsers-new` tag. -/
def processItem (st : RunState) (p : Product) (m : GenMaterial) : ItemResult :=
  let hr := generate_unique_handle st m.primary_kw m.descriptor
  let tr := ensure_unique_title hr.2 m.seo_title
  { state := tr.2
    new_handle := hr.1
    new_title := tr.1
    calls :=
      ApiCall.updateProduct p.id tr.1 m.description_html hr.1 tr.1 m.seo_meta ::
        ((if hr.1 ≠ p.handle then
            [ApiCall.createRedirect (productsPath ++ p.handle) (productsPath ++ hr.1)]
          else []) ++
         [ApiCall.putTags p.id (removeDsersPayloadTags p.tags)]) }

/-- The whole run: process items in order, threading the registry state,
collecting the minted (handle, title) pairs and all remote calls. -/
def runItems (st : RunState) : List (Product × GenMaterial) →
    RunState × List (PyStr × PyStr) × List ApiCall
  | [] => (st, [], [])
  | (p, m) :: rest =>
    let r := processItem st p m
    let rr := runItems r.state rest
    (rr.1, (r.new_handle, r.new_title) :: rr.2.1, r.calls ++ rr.2.2)

/-- The registry state at the start of a run: `seen_handles` and
`seen_titles` empty, the existing sets seeded by the preload scan. -/
def initState (pages : List PageResp) : RunState :=
  ⟨[], (preload_existing_handles_titles pages).1, [],
   (preload_existing_handles_titles pages).2⟩

def isRedirect : ApiCall → Bool
  | ApiCall.createRedirect _ _ => true
  | _ => false

/-! ### Run-level registry invariants -/

theorem processItem_spec (st : RunState) (p : Product) (m : GenMaterial) :
    (processItem st p m).new_handle ∉ st.seen_handles ∧
    (processItem st p m).new_handle ∉ st.existing_handles ∧
    lower (processItem st p m).new_handle = (processItem st p m).new_handle ∧
    lower (processItem st p m).new_title ∉ st.seen_titles ∧
    lower (processItem st p m).new_title ∉ st.existing_titles ∧
    (processItem st p m).state =
      ⟨(processItem st p m).new_handle :: st.seen_handles,
       (processItem st p m).new_handle :: st.existing_handles,
       lower (processItem st p m).new_title :: st.seen_titles,
       lower (processItem st p m).new_title :: st.existing_titles⟩ := by
  have gm := generate_unique_handle_spec st m.primary_kw m.descriptor
  have et := ensure_unique_title_spec
    (generate_unique_handle st m.primary_kw m.descriptor).2 m.seo_title
  have hh : (processItem st p m).new_handle =
      (generate_unique_handle st m.primary_kw m.descriptor).1 := rfl
  have ht : (processItem st p m).new_title =
      (ensure_unique_title (generate_unique_handle st m.primary_kw m.descriptor).2
        m.seo_title).1 := rfl
  have hs : (processItem st p m).state =
      (ensure_unique_title (generate_unique_handle st m.primary_kw m.descriptor).2
        m.seo_title).2 := rfl
  obtain ⟨hres, ⟨k, hk, _⟩, hst⟩ := gm
  rw [hh, ht, hs, hst]
  rw [hst] at et
  obtain ⟨tres, _, tst⟩ := et
  have hfree := handleReserved_false_iff.mp hres
  have tfree := titleReserved_false_iff.mp tres
  refine ⟨hfree.1, hfree.2, ?_, ?_, ?_, ?_⟩
  · rw [hk]
    exact lower_candAt_slug _ _ _
  · exact tfree.1
  · exact tfree.2
  · rw [tst]

theorem runItems_spec (items : List (Product × GenMaterial)) : ∀ (st : RunState),
    (∀ pr ∈ (runItems st items).2.1,
       lower pr.1 = pr.1 ∧ pr.1 ∉ st.existing_handles ∧
         lower pr.2 ∉ st.existing_titles) ∧
    ((runItems st items).2.1).Pairwise
      (fun a b => lower a.1 ≠ lower b.1 ∧ lower a.2 ≠ lower b.2) := by
  induction items with
  | nil =>
    intro st
    simp [runItems]
  | cons pm rest ih =>
    intro st
    obtain ⟨p, m⟩ := pm
    have hps := processItem_spec st p m
    have hrun : (runItems st ((p, m) :: rest)).2.1 =
        ((processItem st p m).new_handle, (processItem st p m).new_title) ::
          (runItems (processItem st p m).state rest).2.1 := rfl
    rw [hrun]
    obtain ⟨hmem, hpair⟩ := ih (processItem st p m).state
    obtain ⟨hns, hne, hlow, hts, hte, hstate⟩ := hps
    constructor
    · intro pr hpr
      rcases List.mem_cons.mp hpr with h1 | h2
      · subst h1
        exact ⟨hlow, hne, hte⟩
      · have hb := hmem pr h2
        refine ⟨hb.1, ?_, ?_⟩
        · intro hmm
          apply hb.2.1
          rw [hstate]
          exact List.mem_cons.mpr (Or.inr hmm)
        · intro hmm
          apply hb.2.2
          rw [hstate]
          exact List.mem_cons.mpr (Or.inr hmm)
    · refine List.Pairwise.cons ?_ hpair
      intro b hb
      have hbf := hmem b hb
      constructor
      · intro heq
        apply hbf.2.1
        rw [hstate]
        have hb1 : b.1 = (processItem st p m).new_handle := by
          rw [← hbf.1, ← heq, hlow]
        rw [hb1]
        exact List.mem_cons_self _ _
      · intro heq
        apply hbf.2.2
        rw [hstate]
        have : lower b.2 = lower (processItem st p m).new_title := heq.symm
        rw [this]
        exact List.mem_cons_self _ _

theorem preload_lower_fixed (pages : List PageResp) :
    (∀ q ∈ (preload_existing_handles_titles pages).1, lower q = q) ∧
    (∀ q ∈ (preload_existing_handles_titles pages).2, lower q = q) := by
  induction pages with
  | nil => simp [preload_existing_handles_titles]
  | cons r rest ih =>
    cases hn : r.next with
    | some u =>
      simp only [preload_existing_handles_titles, hn]
      constructor
      · intro q hq
        rcases List.mem_append.mp hq with h1 | h2
        · rcases List.mem_map.mp h1 with ⟨pr, _, hpq⟩
          subst hpq
          exact lower_lower _
        · exact ih.1 q h2
      · intro q hq
        rcases List.mem_append.mp hq with h1 | h2
        · rcases List.mem_map.mp h1 with ⟨pr, _, hpq⟩
          subst hpq
          exact lower_lower _
        · exact ih.2 q h2
    | none =>
      simp only [preload_existing_handles_titles, hn]
      constructor
      · intro q hq
        rcases List.mem_map.mp hq with ⟨pr, _, hpq⟩
        subst hpq
        exact lower_lower _
      · intro q hq
        rcases List.mem_map.mp hq with ⟨pr, _, hpq⟩
        subst hpq
        exact lower_lower _

/-! ## The claims -/

/-- C1: for every sequence of items processed in one run — whatever the
generator returns for each item — the handles returned by
`generate_unique_handle` are pairwise distinct under case-insensitive
comparison, the titles returned by `ensure_unique_title` likewise, and no
returned handle (resp. title) is case-insensitively equal to a handle
(resp. title) preloaded into the registry by the full-catalog scan. -/
theorem C1_run_uniqueness (pages : List PageResp)
    (items : List (Product × GenMaterial)) :
    (((runItems (initState pages) items).2.1.map Prod.fst).Pairwise
       (fun a b => lower a ≠ lower b)) ∧
    (((runItems (initState pages) items).2.1.map Prod.snd).Pairwise
       (fun a b => lower a ≠ lower b)) ∧
    (∀ pr ∈ (runItems (initState pages) items).2.1,
       ∀ q ∈ (preload_existing_handles_titles pages).1, lower pr.1 ≠ lower q) ∧
    (∀ pr ∈ (runItems (initState pages) items).2.1,
       ∀ q ∈ (preload_existing_handles_titles pages).2, lower pr.2 ≠ lower q) := by
  obtain ⟨hmem, hpair⟩ := runItems_spec items (initState pages)
  refine ⟨?_, ?_, ?_, ?_⟩
  · rw [List.pairwise_map]
    exact hpair.imp (fun h => h.1)
  · rw [List.pairwise_map]
    exact hpair.imp (fun h => h.2)
  · intro pr hpr q hq heq
    have hf := hmem pr hpr
    have hlq := (preload_lower_fixed pages).1 q hq
    apply hf.2.1
    have hpq : pr.1 = q := by rw [← hf.1, heq, hlq]
    rw [hpq]
    exact hq
  · intro pr hpr q hq heq
    have hf := hmem pr hpr
    have hlq := (preload_lower_fixed pages).2 q hq
    apply hf.2.2
    rw [heq, hlq]
    exact hq

/-- One store page carrying one product whose handle normalises to
`kettlebell-set`; used to instantiate the run theorems. -/
def demoPages : List PageResp :=
  [⟨[⟨7, str "Kettlebell-Set ", str " Kettlebell Set", str "", str "", str ""⟩], none⟩]

/-- Two work items whose keyword material both normalise to the base slug
`kettlebell-set`. -/
def demoItems : List (Product × GenMaterial) :=
  [(⟨11, str "kb-old", str "Old", str "dsers-new", str "", str ""⟩,
    ⟨str "Kettlebell", str "Set", str "<p>d</p>", str "Adjustable Kettlebell", str "m"⟩),
   (⟨12, str "kb-old-2", str "Old 2", str "dsers-new", str "", str ""⟩,
    ⟨str "kettlebell", str "set", str "<p>d</p>", str "Adjustable Kettlebell", str "m"⟩)]

theorem C1_run_uniqueness_witness :
    lower (str "kettlebell-set-1") ≠ lower (str "kettlebell-set") := by
  have h := C1_run_uniqueness demoPages demoItems
  exact h.2.2.1 (str "kettlebell-set-1", str "Adjustable Kettlebell") (by decide)
    (str "kettlebell-set") (by decide)

/-- C6: with the registry pre-seeded with the single handle
`kettlebell-set`, minting with base candidate `kettlebell-set` returns
`kettlebell-set-1`; minting the same base again returns
`kettlebell-set-2`; and in general the returned handle is the first
unreserved entry of the strictly increasing suffix sequence `base`,
`base-1`, `base-2`, … (every earlier candidate was reserved, and the
probe never fails: the result is always unreserved) and is reserved in
both handle sets of the new state. -/
theorem C6_handle_suffix_probe :
    ((generate_unique_handle ⟨[], [str "kettlebell-set"], [], []⟩
        (str "kettlebell") (str "set")).1 = str "kettlebell-set-1" ∧
     (generate_unique_handle
        (generate_unique_handle ⟨[], [str "kettlebell-set"], [], []⟩
          (str "kettlebell") (str "set")).2 (str "kettlebell") (str "set")).1 =
       str "kettlebell-set-2") ∧
    ∀ (st : RunState) (p d : PyStr),
      handleReserved st (generate_unique_handle st p d).1 = false ∧
      (generate_unique_handle st p d).1 ∈
        (generate_unique_handle st p d).2.seen_handles ∧
      (generate_unique_handle st p d).1 ∈
        (generate_unique_handle st p d).2.existing_handles ∧
      ∃ k, (generate_unique_handle st p d).1 = candAt (slugBase p d) k ∧
        ∀ j < k, handleReserved st (candAt (slugBase p d) j) = true := by
  constructor
  · exact ⟨rfl, rfl⟩
  · intro st p d
    obtain ⟨hres, hseq, hst⟩ := generate_unique_handle_spec st p d
    refine ⟨hres, ?_, ?_, hseq⟩
    · rw [hst]
      exact List.mem_cons_self _ _
    · rw [hst]
      exact List.mem_cons_self _ _

theorem C6_handle_suffix_probe_witness :
    handleReserved ⟨[], [str "kettlebell-set"], [], []⟩ (str "kettlebell-set-1") =
      false := by
  have h := C6_handle_suffix_probe
  have h2 := (h.2 ⟨[], [str "kettlebell-set"], [], []⟩ (str "kettlebell") (str "set")).1
  rw [h.1.1] at h2
  exact h2

/-- C7: for every processed item the calls emitted by the per-item
workflow contain a redirect-creation call precisely when the minted
handle differs from the item's old handle, and in that case exactly one,
mapping the old handle's path to the new handle's path. -/
theorem C7_redirect_iff (st : RunState) (p : Product) (m : GenMaterial) :
    ((processItem st p m).calls.filter isRedirect).length =
      (if (processItem st p m).new_handle = p.handle then 0 else 1) ∧
    ((processItem st p m).new_handle ≠ p.handle →
      (processItem st p m).calls.filter isRedirect =
        [ApiCall.createRedirect (productsPath ++ p.handle)
          (productsPath ++ (processItem st p m).new_handle)]) ∧
    ((processItem st p m).new_handle = p.handle →
      (processItem st p m).calls.filter isRedirect = []) := by
  have hc : (processItem st p m).calls =
      ApiCall.updateProduct p.id (processItem st p m).new_title
          m.description_html (processItem st p m).new_handle
          (processItem st p m).new_title m.seo_meta ::
        ((if (processItem st p m).new_handle ≠ p.handle then
            [ApiCall.createRedirect (productsPath ++ p.handle)
              (productsPath ++ (processItem st p m).new_handle)]
          else []) ++
         [ApiCall.putTags p.id (removeDsersPayloadTags p.tags)]) := rfl
  by_cases h : (processItem st p m).new_handle = p.handle
  · rw [hc, if_neg (fun hn => hn h)]
    refine ⟨?_, fun hn => absurd h hn, fun _ => ?_⟩ <;>
      simp [List.filter, isRedirect, h]
  · rw [hc, if_pos h]
    refine ⟨?_, fun _ => ?_, fun he => absurd he h⟩ <;>
      simp [List.filter, isRedirect, h]

/-- The draft product of the redirect scenario: old handle `tennis-skirt`. -/
def skirtProduct : Product :=
  ⟨21, str "tennis-skirt", str "Tennis Skirt", str "dsers-new", str "", str ""⟩

theorem C7_redirect_iff_witness :
    (processItem ⟨[], [], [], []⟩ skirtProduct
        ⟨str "Pleated Tennis", str "Skirt", str "<p>d</p>", str "Pleated Tennis Skirt",
         str "m"⟩).calls.filter isRedirect =
      [ApiCall.createRedirect (str "/products/tennis-skirt")
        (str "/products/pleated-tennis-skirt")] ∧
    (processItem ⟨[], [], [], []⟩ skirtProduct
        ⟨str "Tennis", str "Skirt", str "<p>d</p>", str "Tennis Skirt",
         str "m"⟩).calls.filter isRedirect = [] := by
  constructor
  · have h := (C7_redirect_iff ⟨[], [], [], []⟩ skirtProduct
      ⟨str "Pleated Tennis", str "Skirt", str "<p>d</p>", str "Pleated Tennis Skirt",
       str "m"⟩).2.1 (by decide)
    rw [h]
    rfl
  · exact (C7_redirect_iff ⟨[], [], [], []⟩ skirtProduct
      ⟨str "Tennis", str "Skirt", str "<p>d</p>", str "Tennis Skirt",
       str "m"⟩).2.2 (by decide)

/-- C8: the tag list sent by `shopify_remove_dsers_tag` is exactly the
input's (stripped) comma-components with the `dsers-new` entries removed:
it is a sublist of the components (same order, nothing added), no entry
of it is the marker, and every non-marker component is kept with its
multiplicity. -/
theorem C8_remove_tag_frame (tags : PyStr) :
    (updated_tags tags).Sublist ((splitOnChar ',' tags).map pyStrip) ∧
    (∀ t ∈ updated_tags tags, lower t ≠ dsersNew) ∧
    (∀ t : PyStr, lower t ≠ dsersNew →
      List.count t (updated_tags tags) =
        List.count t ((splitOnChar ',' tags).map pyStrip)) := by
  refine ⟨List.filter_sublist _, ?_, ?_⟩
  · intro t ht
    have h2 := (List.mem_filter.mp ht).2
    simpa using h2
  · intro t hlt
    unfold updated_tags
    rw [List.count_filter]
    simp [hlt]

theorem C8_remove_tag_frame_witness :
    updated_tags (str "dsers-new, summer, DSERS-NEW ,winter") =
      [str "summer", str "winter"] ∧
    List.count (str "summer")
        (updated_tags (str "dsers-new, summer, DSERS-NEW ,winter")) =
      List.count (str "summer")
        ((splitOnChar ',' (str "dsers-new, summer, DSERS-NEW ,winter")).map pyStrip) := by
  refine ⟨rfl, ?_⟩
  exact (C8_remove_tag_frame (str "dsers-new, summer, DSERS-NEW ,winter")).2.2
    (str "summer") (by decide)

/-- C2 counterexample: an item tagged `dsers-new, dsers-newish` has its
marker removed by `shopify_remove_dsers_tag` — the resulting tag string
is `dsers-newish`, its other tag unchanged — yet a subsequent
`get_draft_dsers_products` selection still includes the item, because the
selection accepts any tag *containing* `dsers-new` as a substring while
the removal drops only tags *equal* to it.  This refutes the claim's
"whatever its other tags are". -/
theorem C2_counterexample :
    updated_tags (str "dsers-new,dsers-newish") = [str "dsers-newish"] ∧
    hasDsersTag (removeDsersPayloadTags (str "dsers-new,dsers-newish")) = true ∧
    get_draft_dsers_products
      [⟨[⟨5, str "h", str "t", removeDsersPayloadTags (str "dsers-new,dsers-newish"),
          str "", str ""⟩], none⟩] =
      [⟨5, str "h", str "t", removeDsersPayloadTags (str "dsers-new,dsers-newish"),
        str "", str ""⟩] := by
  exact ⟨rfl, rfl, rfl⟩

/-- C2 amended: after `shopify_remove_dsers_tag`, a subsequent
`get_draft_dsers_products` selection over the resulting tag string
excludes the item, provided no remaining tag contains `dsers-new` as a
case-insensitive substring.  (The unconditional claim fails; see the
counterexample.) -/
theorem C2_amended (tags : PyStr)
    (h : ∀ t ∈ updated_tags tags, containsSub dsersNew (lower t) = false) :
    hasDsersTag (removeDsersPayloadTags tags) = false ∧
    ∀ (prods : List Product) (nxt : Option PyStr) (p : Product),
      p.tags = removeDsersPayloadTags tags →
      p ∉ get_draft_dsers_products [⟨prods, nxt⟩] := by
  have hfilter : hasDsersTag (joinCommaSpace (updated_tags tags)) = false :=
    hasDsersTag_joinCommaSpace_false _ (fun t ht => mem_updated_tags_comma_free ht) h
  refine ⟨hfilter, ?_⟩
  intro prods nxt p hp hmem
  have hsel : hasDsersTag p.tags = true := (List.mem_filter.mp hmem).2
  rw [hp] at hsel
  have : hasDsersTag (joinCommaSpace (updated_tags tags)) = true := hsel
  rw [hfilter] at this
  cases this

theorem C2_amended_witness :
    hasDsersTag (removeDsersPayloadTags (str "dsers-new, summer")) = false :=
  (C2_amended (str "dsers-new, summer") (by decide)).1

/-- C3 counterexample: with the registry already containing `seed title`,
`ensure_unique_title` returns the numeric-suffix form `Seed Title (1)` on
the very first remediation attempt; the code contains no regeneration
call to the content generator at all (the function's only input is the
title), whereas the claim's two-tier scheme — modelled by
`mintTitleSpec` — would return a regenerated title after one call. -/
theorem C3_counterexample :
    (ensure_unique_title ⟨[], [], [], [str "seed title"]⟩ (str "Seed Title")).1 =
      str "Seed Title (1)" ∧
    (ensure_unique_title_csv [str "Seed Title"] (str "Seed Title")).1 =
      str "Seed Title (1)" ∧
    mintTitleSpec (fun _ => str "Regenerated Title")
      ⟨[], [], [], [str "seed title"]⟩ (str "Seed Title") =
      (str "Regenerated Title", 1) ∧
    str "Seed Title (1)" ≠ str "Regenerated Title" := by
  exact ⟨rfl, rfl, rfl, by decide⟩

/-- C3 amended: on a title collision, `ensure_unique_title` immediately
probes the numeric-suffix forms `t (1)`, `t (2)`, … of the brand-stripped
candidate `t` and returns the first unreserved one; no regeneration call
to the content generator is ever made (the function takes no generator
input), so a numeric suffix appears on the first remediation attempt,
not after five regenerations. -/
theorem C3_amended (st : RunState) (title : PyStr) :
    titleReserved st (ensure_unique_title st title).1 = false ∧
    ((ensure_unique_title st title).1 = pyStrip (pyReplace brandName [] title) ∨
      ∃ n, 1 ≤ n ∧
        (ensure_unique_title st title).1 =
          pyStrip (pyReplace brandName [] title) ++
            ' ' :: '(' :: (natRepr n ++ [')']) ∧
        ∀ j < n, titleReserved st
          (candTitleAt (pyStrip (pyReplace brandName [] title)) j) = true) := by
  obtain ⟨tres, ⟨k, hk, hkm⟩, _⟩ := ensure_unique_title_spec st title
  refine ⟨tres, ?_⟩
  cases k with
  | zero => exact Or.inl hk
  | succ k => exact Or.inr ⟨k + 1, by omega, hk, hkm⟩

theorem C3_amended_witness :
    titleReserved ⟨[], [], [], [str "seed title"]⟩
      (ensure_unique_title ⟨[], [], [], [str "seed title"]⟩ (str "Seed Title")).1 =
      false :=
  (C3_amended ⟨[], [], [], [str "seed title"]⟩ (str "Seed Title")).1

/-! ### The greedy regex search, characterised -/

theorem reSearch_none_of_no_close : ∀ {s : PyStr}, '\x7d' ∉ s →
    reSearchBraceBlock s = none := by
  intro s
  induction s with
  | nil => intro _; rfl
  | cons c rest ih =>
    intro h
    have hrest : '\x7d' ∉ rest := fun hm => h (by simp [hm])
    simp only [reSearchBraceBlock]
    by_cases hb : c = '\x7b'
    · rw [if_pos hb]
      have hdrop : rest.reverse.dropWhile (fun x => !(x == '\x7d')) = [] := by
        rw [List.dropWhile_eq_nil_iff]
        intro x hx
        have hxne : x ≠ '\x7d' := fun he => hrest (he ▸ List.mem_reverse.mp hx)
        simp [hxne]
      have hlast : lastBraceTrunc rest = none := by
        unfold lastBraceTrunc
        rw [hdrop]
        rfl
      rw [hlast]
      exact ih hrest
    · rw [if_neg hb]
      exact ih hrest

theorem reSearch_eq_specGreedySpan : ∀ (s : PyStr),
    reSearchBraceBlock s = specGreedySpan s := by
  intro s
  induction s with
  | nil => rfl
  | cons c rest ih =>
    by_cases hb : c = '\x7b'
    · subst hb
      have hfrom : ('\x7b' :: rest).dropWhile (fun x => !(x == '\x7b')) =
          '\x7b' :: rest := by
        rw [List.dropWhile_cons]
        simp
      rcases hrcase : rest.reverse.dropWhile (fun x => !(x == '\x7d')) with _ | ⟨y, ys⟩
      · -- no closing brace in rest
        have hnc : '\x7d' ∉ rest := by
          intro hm
          have := List.dropWhile_eq_nil_iff.mp hrcase '\x7d' (List.mem_reverse.mpr hm)
          simp at this
        have hlast : lastBraceTrunc rest = none := by
          unfold lastBraceTrunc
          rw [hrcase]
          rfl
        have hlhs : reSearchBraceBlock ('\x7b' :: rest) = none := by
          simp only [reSearchBraceBlock, if_true]
          rw [hlast]
          exact reSearch_none_of_no_close hnc
        have hdropapp : ('\x7b' :: rest).reverse.dropWhile (fun x => !(x == '\x7d')) =
            [] := by
          rw [List.reverse_cons, List.dropWhile_append, hrcase]
          simp
        have hrhs : specGreedySpan ('\x7b' :: rest) = none := by
          unfold specGreedySpan
          rw [hfrom, hdropapp]
          simp
        rw [hlhs, hrhs]
      · -- rest contains a closing brace
        have hne : rest.reverse.dropWhile (fun x => !(x == '\x7d')) ≠ [] := by
          rw [hrcase]
          simp
        have hlast : lastBraceTrunc rest = some (y :: ys).reverse := by
          unfold lastBraceTrunc
          rw [hrcase]
          simp
        have hlhs : reSearchBraceBlock ('\x7b' :: rest) =
            some ('\x7b' :: (y :: ys).reverse) := by
          simp only [reSearchBraceBlock, if_true]
          rw [hlast]
        have hdropapp : ('\x7b' :: rest).reverse.dropWhile (fun x => !(x == '\x7d')) =
            (y :: ys) ++ ['\x7b'] := by
          rw [List.reverse_cons, List.dropWhile_append, hrcase]
          simp
        have hrhs : specGreedySpan ('\x7b' :: rest) =
            some ('\x7b' :: (y :: ys).reverse) := by
          unfold specGreedySpan
          rw [hfrom, hdropapp]
          rw [if_pos (by simp)]
          simp
        rw [hlhs, hrhs]
    · have hlhs : reSearchBraceBlock (c :: rest) = reSearchBraceBlock rest := by
        simp only [reSearchBraceBlock]
        rw [if_neg hb]
      have hstep : (c :: rest).dropWhile (fun x => !(x == '\x7b')) =
          rest.dropWhile (fun x => !(x == '\x7b')) := by
        rw [List.dropWhile_cons, if_pos (by simp [hb])]
      have hrhs : specGreedySpan (c :: rest) = specGreedySpan rest := by
        unfold specGreedySpan
        rw [hstep]
      rw [hlhs, hrhs, ih]

/-- C4 counterexample: on a text holding two JSON objects, the greedy
regex spans from the first opening brace to the last closing brace, the
parse of that span fails, and `safe_json_loads` returns the empty dict —
while the first *balanced* brace-delimited block parses to a nonempty
dict.  The extraction therefore does not locate and parse the first
balanced block, refuting the claim at this input. -/
theorem C4_counterexample :
    safe_json_loads (str "\x7b\"a\": 1\x7d and \x7b\"b\": 2\x7d") = Json.obj [] ∧
    firstBalancedBlock (str "\x7b\"a\": 1\x7d and \x7b\"b\": 2\x7d") =
      some (str "\x7b\"a\": 1\x7d") ∧
    json_loads (str "\x7b\"a\": 1\x7d") = some (Json.obj [(str "a", Json.num 1)]) ∧
    Json.obj [(str "a", Json.num 1)] ≠ Json.obj [] := by
  refine ⟨rfl, rfl, rfl, ?_⟩
  simp

/-- C4 amended: `safe_json_loads` locates the span from the first opening
brace of the text through the last closing brace (the greedy DOTALL
match), parses only that span, and returns an empty dictionary — never
raising — when no such span exists or the span fails to parse.
`specSafeLoads` is that description written independently of the
operational regex model. -/
theorem C4_amended (text : PyStr) : safe_json_loads text = specSafeLoads text := by
  unfold safe_json_loads specSafeLoads
  rw [reSearch_eq_specGreedySpan]

/-- C5 counterexample: a response whose parsed object carries `related`
but no `primary` makes `generate_keywords` (the API script) return the
response's related list with only the primary defaulted — not the exact
fallback pair the claim requires for any missing required field. -/
theorem C5_counterexample :
    generate_keywords (some (str "\x7b\"related\": [\"x\"]\x7d")) =
      (Json.str (str "product"), Json.arr [Json.str (str "x")]) ∧
    (Json.str (str "product"), Json.arr [Json.str (str "x")]) ≠ fallbackPair := by
  refine ⟨rfl, ?_⟩
  intro h
  have h2 := congrArg Prod.snd h
  simp [fallbackPair] at h2

/-- C5 amended: when the adapter call throws or the response text has no
parseable JSON object, both `generate_keywords` variants return exactly
the pair `("product", ["shop", "buy online", "best deal"])`, and no error
propagates (the functions are total).  When the parsed object is missing
only one required field, the API-script variant substitutes the default
for that field alone, while the CSV-script variant returns the exact
fallback pair whenever either field is missing. -/
theorem C5_amended (t : PyStr) :
    generate_keywords none = fallbackPair ∧
    generate_keywords_csv none = fallbackPair ∧
    (safe_json_loads (pyStrip t) = Json.obj [] →
      generate_keywords (some t) = fallbackPair ∧
      generate_keywords_csv (some t) = fallbackPair) ∧
    (jget (safe_json_loads (pyStrip t)) (str "primary") = none →
      (generate_keywords (some t)).1 = Json.str (str "product")) ∧
    (jget (safe_json_loads (pyStrip t)) (str "related") = none →
      (generate_keywords (some t)).2 =
        Json.arr [Json.str (str "shop"), Json.str (str "buy online"),
                  Json.str (str "best deal")]) ∧
    ((jget (safe_json_loads (pyStrip t)) (str "primary") = none ∨
      jget (safe_json_loads (pyStrip t)) (str "related") = none) →
      generate_keywords_csv (some t) = fallbackPair) := by
  have hcsv : generate_keywords_csv (some t) =
      (match jget (safe_json_loads (pyStrip t)) (str "primary"),
             jget (safe_json_loads (pyStrip t)) (str "related") with
       | some pv, some rv => (pv, rv)
       | _, _ => fallbackPair) := rfl
  refine ⟨rfl, rfl, ?_, ?_, ?_, ?_⟩
  · intro h
    constructor
    · show (jgetD (safe_json_loads (pyStrip t)) (str "primary") _,
        jgetD (safe_json_loads (pyStrip t)) (str "related") _) = fallbackPair
      rw [h]
      rfl
    · rw [hcsv, h]
      rfl
  · intro h
    show jgetD (safe_json_loads (pyStrip t)) (str "primary") _ = _
    unfold jgetD
    rw [h]
    rfl
  · intro h
    show jgetD (safe_json_loads (pyStrip t)) (str "related") _ = _
    unfold jgetD
    rw [h]
    rfl
  · intro h
    rw [hcsv]
    rcases h with h | h
    · rw [h]
    · cases hp : jget (safe_json_loads (pyStrip t)) (str "primary") with
      | none => rfl
      | some pv =>
        rw [h]

theorem C5_amended_witness :
    generate_keywords (some (str "there is no json object here")) = fallbackPair ∧
    generate_keywords_csv (some (str "there is no json object here")) =
      fallbackPair :=
  (C5_amended (str "there is no json object here")).2.2.1 rfl

/-- C9: for every finite page sequence in which each page but the last
carries a next cursor and the last carries none, the pagination loop of
`get_products_by_tag` terminates and yields exactly the concatenation of
all pages' items (each item once, filtered by the tag predicate), and the
preload scan records exactly the stripped-lowercased handle and title of
every item of every page; an empty result set is an empty list, not an
error. -/
theorem get_products_by_tag_cons {tag : PyStr} {r : PageResp}
    {rest : List PageResp} {u : PyStr} (hu : r.next = some u) :
    get_products_by_tag tag (r :: rest) =
      r.products.filter (fun p => containsSub (lower tag) (lower p.tags)) ++
        get_products_by_tag tag rest := by
  show (r.products.filter (fun p => containsSub (lower tag) (lower p.tags)) ++
      match r.next with
      | some _ => get_products_by_tag tag rest
      | none => []) = _
  rw [hu]

theorem preload_cons {r : PageResp} {rest : List PageResp} {u : PyStr}
    (hu : r.next = some u) :
    preload_existing_handles_titles (r :: rest) =
      (r.products.map (fun p => lower (pyStrip p.handle)) ++
         (preload_existing_handles_titles rest).1,
       r.products.map (fun p => lower (pyStrip p.title)) ++
         (preload_existing_handles_titles rest).2) := by
  show (match r.next with
      | some _ =>
        (r.products.map (fun (p : Product) => lower (pyStrip p.handle)) ++
           (preload_existing_handles_titles rest).1,
         r.products.map (fun (p : Product) => lower (pyStrip p.title)) ++
           (preload_existing_handles_titles rest).2)
      | none =>
        (r.products.map (fun (p : Product) => lower (pyStrip p.handle)),
         r.products.map (fun (p : Product) => lower (pyStrip p.title)))) = _
  rw [hu]

theorem C9_pagination (tag : PyStr) (pages : List PageResp)
    (h : ChainPages pages) :
    get_products_by_tag tag pages =
      ((pages.map PageResp.products).flatten).filter
        (fun p => containsSub (lower tag) (lower p.tags)) ∧
    preload_existing_handles_titles pages =
      (((pages.map PageResp.products).flatten).map (fun p => lower (pyStrip p.handle)),
       ((pages.map PageResp.products).flatten).map (fun p => lower (pyStrip p.title))) := by
  revert h
  induction pages with
  | nil =>
    intro _
    exact ⟨rfl, rfl⟩
  | cons r rest ih =>
    intro h
    cases rest with
    | nil =>
      have hn : r.next = none := h
      constructor
      · simp [get_products_by_tag, hn]
      · simp [preload_existing_handles_titles, hn]
    | cons r2 rest2 =>
      obtain ⟨hs, hrest⟩ := h
      obtain ⟨u, hu⟩ := Option.isSome_iff_exists.mp hs
      have ihr := ih hrest
      constructor
      · rw [get_products_by_tag_cons hu, ihr.1]
        simp [List.filter_append]
      · rw [preload_cons hu, ihr.2]
        simp

/-- The three-page scenario of the spec's pagination test. -/
def page3A : Product := ⟨1, str "a", str "A", str "sale, new", str "", str ""⟩

def page3B : Product := ⟨2, str "b", str "B", str "archive", str "", str ""⟩

def page3C : Product := ⟨3, str "c", str "C", str "Sale", str "", str ""⟩

def threePages : List PageResp :=
  [⟨[page3A], some (str "cursor2")⟩, ⟨[page3B], some (str "cursor3")⟩,
   ⟨[page3C], none⟩]

theorem C9_pagination_witness :
    get_products_by_tag (str "sale") threePages = [page3A, page3C] ∧
    get_products_by_tag (str "sale") [⟨[], none⟩] = [] := by
  constructor
  · have h := (C9_pagination (str "sale") threePages ⟨rfl, rfl, rfl⟩).1
    rw [h]
    rfl
  · have h := (C9_pagination (str "sale") [⟨[], none⟩] rfl).1
    rw [h]
    rfl

/-- C10: `get_draft_dsers_products` issues a single listing request and
never follows a cursor: its result is the same whatever pages lie beyond
the first, every selected item belongs to the first response page, and
when the server honours the 250-item page limit the selection holds at
most 250 items. -/
theorem C10_single_page (pg : PageResp) (rest rest2 : List PageResp) :
    get_draft_dsers_products (pg :: rest) = get_draft_dsers_products (pg :: rest2) ∧
    (∀ p ∈ get_draft_dsers_products (pg :: rest), p ∈ pg.products) ∧
    (pg.products.length ≤ 250 →
      (get_draft_dsers_products (pg :: rest)).length ≤ 250) := by
  refine ⟨rfl, ?_, ?_⟩
  · intro p hp
    exact (List.mem_filter.mp hp).1
  · intro h250
    exact le_trans (List.length_filter_le _ _) h250

/-- An eligible draft product sitting on the second page. -/
def secondPageDraft : Product :=
  ⟨42, str "late", str "Late", str "dsers-new", str "", str ""⟩

theorem C10_single_page_witness :
    get_draft_dsers_products
        [⟨[skirtProduct, page3B], some (str "cursor2")⟩, ⟨[secondPageDraft], none⟩] =
      get_draft_dsers_products [⟨[skirtProduct, page3B], some (str "cursor2")⟩] ∧
    secondPageDraft ∉ get_draft_dsers_products
        [⟨[skirtProduct, page3B], some (str "cursor2")⟩, ⟨[secondPageDraft], none⟩] ∧
    (get_draft_dsers_products
        [⟨[skirtProduct, page3B], some (str "cursor2")⟩, ⟨[secondPageDraft], none⟩]).length ≤
      250 := by
  have h := C10_single_page ⟨[skirtProduct, page3B], some (str "cursor2")⟩
    [⟨[secondPageDraft], none⟩] []
  refine ⟨h.1, ?_, h.2.2 (by decide)⟩
  intro hmem
  exact absurd (h.2.1 secondPageDraft hmem) (by decide)
